import Mathlib

/-!
Verification development for the `plailab/VoiceAssistant` agent
(`src/agent.py`), a LiveKit voice agent that bridges LLM tool calls to a
single connected remote endpoint over RPC and ingests inbound data-channel
messages into a process-scoped store (`frontendData`).

The embedding models:
* the payload encoding (`json.dumps` with default options, restricted to the
  flat string/bool/int payload maps of the spec's data model) and the matching
  decoding (`json.loads` on the same fragment);
* endpoint resolution (`list(self.ctx.room.remote_participants.values())[0]`
  guarded by the emptiness check);
* the four registered tool handlers `change_background`, `select_exercise`,
  `start_game`, `change_reps`, plus the spec-described weather tool;
* the inbound `data_received` handler (`json.loads` + `frontendData.update`
  inside `try/except`) together with the relevant behaviour of Python's
  `dict.update` on decoded JSON values.
-/

namespace VoiceAssistant

/-! ## JSON scalar payload values

The spec's command-envelope data model: payloads are flat maps from string
keys to string/bool/int values (spec §3). -/

/-- A JSON scalar payload value: string, boolean, or integer
(the value types of the spec's command-envelope data model). -/
inductive Scalar where
  | str (s : String)
  | bool (b : Bool)
  | int (i : Int)
  deriving DecidableEq, Repr

/-! ## Encoding: model of CPython `json.dumps` (default options) on flat maps

`json.dumps` with default arguments uses `ensure_ascii=True` (so every
character outside printable ASCII is `\uXXXX`-escaped, with surrogate pairs
above the BMP), item separator `", "` and key separator `": "`. -/

/-- Lowercase hex digit character for `d < 16` (CPython uses `'\\u%04x'`,
lowercase). -/
def hexDigit (d : Nat) : Char :=
  if d < 10 then Char.ofNat (48 + d) else Char.ofNat (87 + d)

/-- Four lowercase hex digits of `n` (for `n < 0x10000`), most significant
first, as emitted by CPython's `'\\u%04x' % n`. -/
def hex4 (n : Nat) : List Char :=
  [hexDigit (n / 4096 % 16), hexDigit (n / 256 % 16), hexDigit (n / 16 % 16), hexDigit (n % 16)]

/-- Escape of a single character inside a JSON string, per CPython
`json.encoder.py_encode_basestring_ascii` (the default `ensure_ascii=True`
encoder): the named short escapes, literal printable ASCII, `\uXXXX` for
other BMP characters, and a surrogate pair for characters above the BMP. -/
def escChar (c : Char) : List Char :=
  if c = '"' then ['\\', '"']
  else if c = '\\' then ['\\', '\\']
  else if c = '\x08' then ['\\', 'b']
  else if c = '\x0c' then ['\\', 'f']
  else if c = '\n' then ['\\', 'n']
  else if c = '\r' then ['\\', 'r']
  else if c = '\t' then ['\\', 't']
  else if 0x20 ≤ c.toNat ∧ c.toNat ≤ 0x7e then [c]
  else if c.toNat < 0x10000 then '\\' :: 'u' :: hex4 c.toNat
  else
    '\\' :: 'u' :: hex4 (0xD800 + (c.toNat - 0x10000) / 1024) ++
      '\\' :: 'u' :: hex4 (0xDC00 + (c.toNat - 0x10000) % 1024)

/-- Escape every character of a string body in order. -/
def escList : List Char → List Char
  | [] => []
  | c :: l => escChar c ++ escList l

/-- A JSON string literal: opening quote, escaped body, closing quote. -/
def encodeStringChars (s : String) : List Char :=
  '"' :: escList s.data ++ ['"']

/-- Decimal digit character for `d < 10`. -/
def digitChar (d : Nat) : Char := Char.ofNat (48 + d)

/-- Decimal digits of `n`, least significant first; `fuel` bounds the
recursion (`fuel ≥ n` suffices). -/
def digitsRevFuel : Nat → Nat → List Nat
  | 0, _ => []
  | fuel + 1, n => if n = 0 then [] else n % 10 :: digitsRevFuel fuel (n / 10)

/-- Decimal representation of a natural number, as Python's `repr` of a
non-negative `int` prints it. -/
def natChars (n : Nat) : List Char :=
  if n = 0 then ['0'] else ((digitsRevFuel n n).reverse).map digitChar

/-- Decimal representation of an integer, as Python's `repr` of an `int`
prints it (a leading `-` for negative values). -/
def intChars (i : Int) : List Char :=
  if i < 0 then '-' :: natChars (-i).toNat else natChars i.toNat

/-- Encoding of a single scalar value, as `json.dumps` renders it:
a quoted escaped string, `true`/`false`, or a decimal integer. -/
def encodeScalar : Scalar → List Char
  | .str s => encodeStringChars s
  | .bool true => ['t', 'r', 'u', 'e']
  | .bool false => ['f', 'a', 'l', 's', 'e']
  | .int i => intChars i

/-- One `"key": value` item of a JSON object, with `json.dumps`'s default
key separator `": "`. -/
def encItem (kv : String × Scalar) : List Char :=
  encodeStringChars kv.1 ++ ':' :: ' ' :: encodeScalar kv.2

/-- The items of a JSON object joined by `json.dumps`'s default item
separator `", "`. -/
def encItems : List (String × Scalar) → List Char
  | [] => []
  | [kv] => encItem kv
  | kv :: rest => encItem kv ++ ',' :: ' ' :: encItems rest

/-- The dispatcher's JSON encoding of a flat payload map: the exact text
`json.dumps` produces for a `dict` of string/bool/int values
(`src/agent.py:70-72` and the parallel handlers). -/
def encodeObj (m : List (String × Scalar)) : String :=
  ⟨'{' :: encItems m ++ ['}']⟩

/-! ## Decoding: model of CPython `json.loads` on the same fragment -/

/-- JSON whitespace accepted between tokens. -/
def isWs (c : Char) : Bool :=
  c == ' ' || c == '\t' || c == '\n' || c == '\r'

/-- Skip JSON whitespace. -/
def skipWs : List Char → List Char
  | [] => []
  | c :: rest => if isWs c then skipWs rest else c :: rest

/-- Value of a hex digit character (JSON accepts both cases in `\uXXXX`). -/
def hexVal (c : Char) : Option Nat :=
  if '0' ≤ c ∧ c ≤ '9' then some (c.toNat - 48)
  else if 'a' ≤ c ∧ c ≤ 'f' then some (c.toNat - 87)
  else if 'A' ≤ c ∧ c ≤ 'F' then some (c.toNat - 55)
  else none

/-- Read four hex digits into their value. -/
def readHex4 : List Char → Option (Nat × List Char)
  | h1 :: h2 :: h3 :: h4 :: r =>
    match hexVal h1, hexVal h2, hexVal h3, hexVal h4 with
    | some v1, some v2, some v3, some v4 => some (v1 * 4096 + v2 * 256 + v3 * 16 + v4, r)
    | _, _, _, _ => none
  | _ => none

/-- Resolve a `\uXXXX` escape body, combining a surrogate pair into one
codepoint as `json.loads` does. A lone surrogate escape is rejected here
(CPython would produce a lone surrogate code unit, which a Lean `Char`
cannot represent); the encoder never emits one. -/
def readUnicode (l : List Char) : Option (Char × List Char) :=
  match readHex4 l with
  | none => none
  | some (n, r2) =>
    if 0xD800 ≤ n ∧ n < 0xDC00 then
      match r2 with
      | '\\' :: 'u' :: r3 =>
        match readHex4 r3 with
        | none => none
        | some (m, r4) =>
          if 0xDC00 ≤ m ∧ m < 0xE000 then
            some (Char.ofNat (0x10000 + (n - 0xD800) * 1024 + (m - 0xDC00)), r4)
          else none
      | _ => none
    else if 0xDC00 ≤ n ∧ n < 0xE000 then none
    else some (Char.ofNat n, r2)

/-- Resolve one backslash escape (the characters after the backslash):
the named short escapes and `\uXXXX`, as `json.loads` accepts them. -/
def readEscape : List Char → Option (Char × List Char)
  | [] => none
  | e :: r =>
    if e = '"' then some ('"', r)
    else if e = '\\' then some ('\\', r)
    else if e = '/' then some ('/', r)
    else if e = 'b' then some ('\x08', r)
    else if e = 'f' then some ('\x0c', r)
    else if e = 'n' then some ('\n', r)
    else if e = 'r' then some ('\r', r)
    else if e = 't' then some ('\t', r)
    else if e = 'u' then readUnicode r
    else none

/-- JSON string-body scanner: consumes characters after the opening quote up
to and including the closing quote, resolving backslash escapes exactly as
`json.loads` does. Raw control characters are rejected (`json.loads` default
`strict=True`). `fuel` bounds the recursion; any bound at least the input
length suffices, since every step consumes at least one character. -/
def parseStringAux : Nat → List Char → List Char → Option (String × List Char)
  | 0, _, _ => none
  | _ + 1, _, [] => none
  | fuel + 1, acc, c :: rest =>
    if c = '"' then some (⟨acc.reverse⟩, rest)
    else if c = '\\' then
      match readEscape rest with
      | some (ch, r) => parseStringAux fuel (ch :: acc) r
      | none => none
    else if c.toNat < 0x20 then none
    else parseStringAux fuel (c :: acc) rest

/-- Greedily consume decimal digits, Horner-accumulating their value. -/
def parseNatAux (acc : Nat) : List Char → Nat × List Char
  | [] => (acc, [])
  | c :: rest =>
    if c.isDigit then parseNatAux (acc * 10 + (c.toNat - 48)) rest
    else (acc, c :: rest)

/-- Parse one scalar JSON value (string, `true`/`false`, or integer), the
fragment of `json.loads` values the command-envelope data model uses.
Fractions, exponents, `null` and nested composites lie outside the modelled
payload fragment. -/
def parseScalar : List Char → Option (Scalar × List Char)
  | [] => none
  | c :: rest =>
    if c = '"' then
      match parseStringAux (rest.length + 1) [] rest with
      | some (s, r) => some (.str s, r)
      | none => none
    else if c = 't' then
      match rest with
      | 'r' :: 'u' :: 'e' :: r => some (.bool true, r)
      | _ => none
    else if c = 'f' then
      match rest with
      | 'a' :: 'l' :: 's' :: 'e' :: r => some (.bool false, r)
      | _ => none
    else if c = '-' then
      match rest with
      | d :: r =>
        if d.isDigit then
          match parseNatAux (d.toNat - 48) r with
          | (n, r2) => some (.int (-(n : Int)), r2)
        else none
      | [] => none
    else if c.isDigit then
      match parseNatAux (c.toNat - 48) rest with
      | (n, r2) => some (.int (n : Int), r2)
    else none

/-- Parse one `"key": value` member of a JSON object (key string, colon,
scalar value, with the whitespace `json.loads` allows around the colon). -/
def parseItem : List Char → Option ((String × Scalar) × List Char)
  | '"' :: rest =>
    match parseStringAux (rest.length + 1) [] rest with
    | some (k, r1) =>
      match skipWs r1 with
      | ':' :: r2 =>
        match parseScalar (skipWs r2) with
        | some (v, r3) => some ((k, v), r3)
        | none => none
      | _ => none
    | none => none
  | _ => none

/-- Parse the members of a JSON object after the opening brace (first member
onward): `"key": value` items separated by commas, up to and including the
closing brace. `fuel` bounds the number of members (any `fuel` exceeding the
member count suffices). -/
def parseItems : Nat → List Char → Option (List (String × Scalar) × List Char)
  | 0, _ => none
  | fuel + 1, l =>
    match parseItem l with
    | some (kv, r3) =>
      match skipWs r3 with
      | ',' :: r4 =>
        match parseItems fuel (skipWs r4) with
        | some (kvs, r5) => some (kv :: kvs, r5)
        | none => none
      | '}' :: r4 => some ([kv], r4)
      | _ => none
    | none => none

/-- Insert a key/value pair into an association list with Python `dict`
assignment semantics: overwrite in place if the key is present (keeping its
position), append otherwise. `json.loads` builds its object this way, so a
duplicate key keeps its first position with its last value. -/
def insertPair : List (String × Scalar) → String → Scalar → List (String × Scalar)
  | [], k, v => [(k, v)]
  | (k1, v1) :: rest, k, v =>
    if k1 = k then (k1, v) :: rest else (k1, v1) :: insertPair rest k v

/-- Decoding of a JSON object of scalar members: the behaviour of
`json.loads` on the payload fragment (a single top-level object of
string/bool/int members, surrounding whitespace allowed, whole input
consumed). -/
def decodeObj (s : String) : Option (List (String × Scalar)) :=
  match skipWs s.data with
  | '{' :: rest =>
    match skipWs rest with
    | '}' :: r2 => if skipWs r2 = [] then some [] else none
    | l =>
      match parseItems (l.length + 1) l with
      | some (kvs, r2) =>
        if skipWs r2 = [] then
          some (kvs.foldl (fun a kv => insertPair a kv.1 kv.2) [])
        else none
      | none => none
  | _ => none


/-- A list that does not begin with a decimal digit (the greedy number
scanner stops at it). -/
def noDigitHead : List Char → Prop
  | [] => True
  | c :: _ => c.isDigit = false


/-! ## Endpoint resolution and command dispatch

Model of the shared handler skeleton of `AssistantFnc.change_background`,
`select_exercise`, `start_game` and `change_reps` (`src/agent.py:42-212`).
Each handler: (1) returns early when `self.ctx.room.remote_participants` is
empty; (2) takes the first participant of the dict's stable iteration order
(`list(....values())[0]`); (3) serializes its payload with `json.dumps`;
(4) awaits a single `perform_rpc` call inside `try`, catching any exception
and logging it. -/

/-- A connected remote participant, reduced to the identity the dispatcher
addresses (`remote_participant.identity`). -/
structure Participant where
  identity : String
  deriving DecidableEq, Repr

/-- The room state a handler reads: `self.ctx.room.remote_participants`,
as the list of its values in the dict's stable (insertion) iteration
order. -/
structure Room where
  remote_participants : List Participant
  deriving DecidableEq, Repr

/-- One outbound `perform_rpc` invocation: destination identity, method
name, and the JSON payload text (`src/agent.py:76-80`). -/
structure RpcCall where
  destination_identity : String
  method : String
  payload : String
  deriving DecidableEq, Repr

/-- Classification of a handler run, following the spec's
`DispatchResult ∈ {Sent, NoEndpoint, TransportFailure}` (§4.3): `NoEndpoint`
is the early return on an empty participant dict, `TransportFailure` is the
`except` branch after `perform_rpc` raised, `Sent` is the successful path. -/
inductive DispatchResult where
  | Sent
  | NoEndpoint
  | TransportFailure
  deriving DecidableEq, Repr

/-- Endpoint resolution: `list(self.ctx.room.remote_participants.values())[0]`
guarded by the `if not self.ctx.room.remote_participants` check
(`src/agent.py:62-67`) — none on an empty peer set, otherwise the first
participant in stable iteration order. -/
def resolveEndpoint (peers : List Participant) : Option Participant :=
  peers.head?

/-- The transport is modelled as a function deciding, per call, whether
`perform_rpc` completes (`true`) or raises a transport-level error
(`false`, covering timeouts — the `except Exception` branch). -/
abbrev Transport := RpcCall → Bool

/-- The shared dispatch skeleton of the four handlers: early return with no
I/O when no participant is connected; otherwise exactly one `perform_rpc`
to the first participant, with any transport error caught and logged
(`src/agent.py:62-85` and the three copies). Returns the outcome
classification together with the list of RPC calls attempted. -/
def sendCommand (room : Room) (transport : Transport) (method : String)
    (payload : String) : DispatchResult × List RpcCall :=
  match resolveEndpoint room.remote_participants with
  | none => (.NoEndpoint, [])
  | some p =>
    let call : RpcCall := ⟨p.identity, method, payload⟩
    if transport call then (.Sent, [call]) else (.TransportFailure, [call])

/-- `AssistantFnc.change_background` (`src/agent.py:42-85`): payload
`json.dumps({"color": color})`, method `"change_background"`. -/
def change_background (color : String) (room : Room) (transport : Transport) :
    DispatchResult × List RpcCall :=
  sendCommand room transport "change_background" (encodeObj [("color", .str color)])

/-- `AssistantFnc.select_exercise` (`src/agent.py:88-124`): payload
`json.dumps({"exercise": exercise})`, method `"select_exercise"`. -/
def select_exercise (exercise : String) (room : Room) (transport : Transport) :
    DispatchResult × List RpcCall :=
  sendCommand room transport "select_exercise" (encodeObj [("exercise", .str exercise)])

/-- `AssistantFnc.start_game` (`src/agent.py:126-168`): payload
`json.dumps({"Yes": Yes})`, method `"start_game"`. The `Yes` argument is a
`str` and is serialized as received — no boolean parse occurs. -/
def start_game (Yes : String) (room : Room) (transport : Transport) :
    DispatchResult × List RpcCall :=
  sendCommand room transport "start_game" (encodeObj [("Yes", .str Yes)])

/-- `AssistantFnc.change_reps` (`src/agent.py:170-212`): payload
`json.dumps({"reps": reps})`, method `"change_reps"`. The `reps` argument is
a `str` and is serialized as received — no integer parse occurs. -/
def change_reps (reps : String) (room : Room) (transport : Transport) :
    DispatchResult × List RpcCall :=
  sendCommand room transport "change_reps" (encodeObj [("reps", .str reps)])

/-- Modelled from the spec: the weather tool handler
(`display_weather {location, weather}`, spec §6) is not present in
`src/agent.py` — only its traces remain there (the `aiohttp` import at line 4
and the class docstring's "weather retrieval" at lines 30-35), and the spec's
§2 line count (~724) exceeds the 301 lines under `src/`. Following the spec:
the handler performs an external weather fetch (irrelevant to dispatch,
passed in as the fetched `weather` text) and then dispatches method
`"display_weather"` with the string-valued payload keys `location` and
`weather` through the same resolve-then-dispatch skeleton. -/
def display_weather (location : String) (weather : String) (room : Room)
    (transport : Transport) : DispatchResult × List RpcCall :=
  sendCommand room transport "display_weather"
    (encodeObj [("location", .str location), ("weather", .str weather)])

/-- A tool-call invocation of one of the agent's tools with its arguments:
the four `@llm.ai_callable()` handlers registered on `AssistantFnc`
(`src/agent.py:29-212`) plus the spec-modelled weather tool. -/
inductive ToolCall where
  | change_background (color : String)
  | select_exercise (exercise : String)
  | start_game (Yes : String)
  | change_reps (reps : String)
  | display_weather (location : String) (weather : String)

/-- Run one tool-call invocation against the current room. -/
def runTool : ToolCall → Room → Transport → DispatchResult × List RpcCall
  | .change_background color => change_background color
  | .select_exercise exercise => select_exercise exercise
  | .start_game Yes => start_game Yes
  | .change_reps reps => change_reps reps
  | .display_weather location weather => display_weather location weather

/-- The outbound method name each tool emits. -/
def toolMethod : ToolCall → String
  | .change_background _ => "change_background"
  | .select_exercise _ => "select_exercise"
  | .start_game _ => "start_game"
  | .change_reps _ => "change_reps"
  | .display_weather _ _ => "display_weather"

/-- The payload map each tool serializes (all values are strings, as the
handlers pass their `str` arguments through). -/
def toolPayloadMap : ToolCall → List (String × Scalar)
  | .change_background color => [("color", .str color)]
  | .select_exercise exercise => [("exercise", .str exercise)]
  | .start_game Yes => [("Yes", .str Yes)]
  | .change_reps reps => [("reps", .str reps)]
  | .display_weather location weather =>
      [("location", .str location), ("weather", .str weather)]

/-- The payload keys of each method, per the spec's outbound catalog (§6). -/
def toolKeys : ToolCall → List String
  | .change_background _ => ["color"]
  | .select_exercise _ => ["exercise"]
  | .start_game _ => ["Yes"]
  | .change_reps _ => ["reps"]
  | .display_weather _ _ => ["location", "weather"]

/-- Whether a scalar payload value is a JSON string. -/
def Scalar.isStr : Scalar → Bool
  | .str _ => true
  | _ => false

/-- The fixed outbound method catalog of spec §6. -/
def methodCatalog : List String :=
  ["display_weather", "change_background", "start_game", "select_exercise", "change_reps"]

/-- A method name is emittable if some tool invocation in some state attempts
an RPC carrying it. -/
def canEmit (m : String) : Prop :=
  ∃ (t : ToolCall) (room : Room) (tr : Transport) (c : RpcCall),
    c ∈ (runTool t room tr).2 ∧ c.method = m

/-! ## Inbound ingestion: `on_data_received` (`src/agent.py:219-235`)

The handler body runs `parsed_data = json.loads(data.data)` and then
`frontendData.update(parsed_data)` inside `try/except Exception`, so no
exception escapes the ingestion path. The packet bytes enter the model as
the result of `json.loads`: `none` when the bytes do not decode/parse as
JSON (the exception path), `some v` for the parsed JSON value `v`. -/

/-- A decoded JSON value, as `json.loads` produces it on the inbound data
fragment the agent exchanges (numbers restricted to integers; floats are
outside the modelled fragment). -/
inductive Json where
  | null
  | bool (b : Bool)
  | num (n : Int)
  | str (s : String)
  | arr (elems : List Json)
  | obj (members : List (String × Json))

/-- Python `==` on the values that can actually appear as `dict` keys here
(hashable JSON scalars; lists and dicts are unhashable and are never
inserted as keys — `dict` would have raised `TypeError` first). Python's
cross-type numeric equality (`1 == True`) is not modelled; no key the agent
exchanges relies on it. -/
def Json.keyEq : Json → Json → Bool
  | .null, .null => true
  | .bool a, .bool b => a == b
  | .num a, .num b => a == b
  | .str a, .str b => a == b
  | _, _ => false

/-- `frontendData` (`src/agent.py:27`): the module-level `dict` the spec
calls SharedState, as its insertion-ordered key/value pairs. Keys are `Json`
because `dict.update` on a sequence of pairs can insert non-string keys. -/
abbrev SharedState := List (Json × Json)

/-- Python `dict` item assignment `d[k] = v`: overwrite in place when the
key is present (keeping its position), append otherwise. -/
def pyInsert : SharedState → Json → Json → SharedState
  | [], k, v => [(k, v)]
  | (k1, v1) :: rest, k, v =>
    if k1.keyEq k then (k1, v) :: rest else (k1, v1) :: pyInsert rest k v

/-- Whether a JSON value may be used as a Python `dict` key (lists and dicts
are unhashable). -/
def Json.hashable : Json → Bool
  | .arr _ => false
  | .obj _ => false
  | _ => true

/-- How `dict.update`'s sequence path (CPython `PyDict_MergeFromSeq2`) views
one element of a non-mapping iterable: the element must itself be an
iterable of length 2 — a two-element JSON array, a two-character string
(iterating its characters), or a two-member JSON object (iterating its
keys). Anything else raises at that element. -/
def pairOfElem : Json → Option (Json × Json)
  | .arr [k, v] => some (k, v)
  | .str s =>
    match s.data with
    | [c1, c2] => some (.str ⟨[c1]⟩, .str ⟨[c2]⟩)
    | _ => none
  | .obj [(k1, _), (k2, _)] => some (.str k1, .str k2)
  | _ => none

/-- `dict.update` over a non-mapping iterable: insert the key/value view of
each element in order; on the first bad element (not a pair, or an
unhashable key) raise, keeping the insertions made so far (CPython inserts
as it iterates). The `error` carries the partially-updated dict that the
caught exception leaves behind. -/
def mergeFromSeq : SharedState → List Json → Except SharedState SharedState
  | st, [] => .ok st
  | st, e :: rest =>
    match pairOfElem e with
    | some (k, v) =>
      if k.hashable then mergeFromSeq (pyInsert st k v) rest else .error st
    | none => .error st

/-- Python `dict.update(arg)` on a decoded JSON value: a JSON object is a
mapping and merges key by key (last write wins per key); an array is
consumed as a sequence of key/value pairs; a nonempty string iterates
characters whose length-1 elements fail the pair check (raising with the
dict unchanged), while the empty string is an empty iterable and succeeds;
numbers, booleans and `null` are not iterable and raise. -/
def pyUpdate (st : SharedState) : Json → Except SharedState SharedState
  | .obj kvs => .ok (kvs.foldl (fun a kv => pyInsert a (.str kv.1) kv.2) st)
  | .arr elems => mergeFromSeq st elems
  | .str s => if s.data = [] then .ok st else .error st
  | _ => .error st

/-- The `data_received` handler (`src/agent.py:219-235`): `parsed` is the
result of `json.loads` on the packet bytes (`none` when it raised). On parse
failure the `except` branch logs and leaves `frontendData` untouched; on
success `frontendData.update(parsed_data)` runs, and if `update` itself
raises, the same `except` branch catches it, keeping whatever partial
mutation `update` already performed. No exception escapes. -/
def on_data_received (parsed : Option Json) (st : SharedState) : SharedState :=
  match parsed with
  | none => st
  | some v =>
    match pyUpdate st v with
    | .ok st2 => st2
    | .error st2 => st2

/-- Read a key from `frontendData` (Python `d.get(k)` / `d[k]`). -/
def getKey (st : SharedState) (k : Json) : Option Json :=
  match st with
  | [] => none
  | (k1, v1) :: rest => if k1.keyEq k then some v1 else getKey rest k

/-! ## The full program state seen by handlers and the ingestor -/

/-- The process state the spec's components share: the module-level
`frontendData` store and the room's connected-participant set. -/
structure ProgState where
  frontendData : SharedState
  room : Room

/-- Run a tool-call invocation against the full program state. The handler
bodies (`src/agent.py:42-212`) read only `self.ctx.room` and never reference
`frontendData`, so the state comes back unchanged next to the dispatch
outcome. -/
def runToolFull (t : ToolCall) (st : ProgState) (transport : Transport) :
    ProgState × DispatchResult × List RpcCall :=
  (st, runTool t st.room transport)


/-! ## Round-trip lemmas: the scanner inverts the escaper -/

theorem hexVal_hexDigit : ∀ d < 16, hexVal (hexDigit d) = some d := by decide

/-- The codepoint range of a Lean `Char` (no surrogates, below `0x110000`). -/
theorem char_toNat_range (c : Char) :
    c.toNat < 0xD800 ∨ (0xDFFF < c.toNat ∧ c.toNat < 0x110000) := c.valid

theorem readHex4_hex4 (n : Nat) (hn : n < 0x10000) (r : List Char) :
    readHex4 (hex4 n ++ r) = some (n, r) := by
  have h1 : n / 4096 % 16 < 16 := Nat.mod_lt _ (by norm_num)
  have h2 : n / 256 % 16 < 16 := Nat.mod_lt _ (by norm_num)
  have h3 : n / 16 % 16 < 16 := Nat.mod_lt _ (by norm_num)
  have h4 : n % 16 < 16 := Nat.mod_lt _ (by norm_num)
  simp only [hex4, List.cons_append, List.nil_append, readHex4,
    hexVal_hexDigit _ h1, hexVal_hexDigit _ h2, hexVal_hexDigit _ h3, hexVal_hexDigit _ h4,
    Option.some.injEq, Prod.mk.injEq]
  exact ⟨by omega, trivial⟩

theorem readUnicode_bmp (n : Nat) (hn : n < 0x10000) (hns : n < 0xD800 ∨ 0xE000 ≤ n)
    (r : List Char) : readUnicode (hex4 n ++ r) = some (Char.ofNat n, r) := by
  rw [readUnicode, readHex4_hex4 n hn]
  simp only []
  rw [if_neg (by omega), if_neg (by omega)]

theorem readUnicode_surrogate (n : Nat) (hlo : 0x10000 ≤ n) (hhi : n < 0x110000)
    (r : List Char) :
    readUnicode (hex4 (0xD800 + (n - 0x10000) / 1024) ++
        '\\' :: 'u' :: (hex4 (0xDC00 + (n - 0x10000) % 1024) ++ r)) =
      some (Char.ofNat n, r) := by
  have hdiv : (n - 0x10000) / 1024 < 1024 := by omega
  rw [readUnicode, readHex4_hex4 _ (by omega : 0xD800 + (n - 0x10000) / 1024 < 0x10000)]
  simp only []
  rw [readHex4_hex4 _ (by omega : 0xDC00 + (n - 0x10000) % 1024 < 0x10000)]
  simp only []
  rw [if_pos (by omega : 0xD800 ≤ 0xD800 + (n - 0x10000) / 1024 ∧
    0xD800 + (n - 0x10000) / 1024 < 0xDC00)]
  rw [if_pos (by omega : 0xDC00 ≤ 0xDC00 + (n - 0x10000) % 1024 ∧
    0xDC00 + (n - 0x10000) % 1024 < 0xE000)]
  have harg : 65536 + (55296 + (n - 65536) / 1024 - 55296) * 1024 +
      (56320 + (n - 65536) % 1024 - 56320) = n := by omega
  rw [harg]

theorem readEscape_u (l : List Char) : readEscape ('u' :: l) = readUnicode l := by
  simp only [readEscape]
  rfl

theorem parseStringAux_backslash (fuel : Nat) (acc rest : List Char) :
    parseStringAux (fuel + 1) acc ('\\' :: rest) =
      match readEscape rest with
      | some (ch, r) => parseStringAux fuel (ch :: acc) r
      | none => none := by
  simp only [parseStringAux]
  rfl

theorem parseStringAux_literal (fuel : Nat) (acc : List Char) (c : Char)
    (h1 : c ≠ '"') (h2 : c ≠ '\\') (h3 : 0x20 ≤ c.toNat) (rest : List Char) :
    parseStringAux (fuel + 1) acc (c :: rest) = parseStringAux fuel (c :: acc) rest := by
  simp only [parseStringAux]
  rw [if_neg h1, if_neg h2, if_neg (by omega)]

/-- Scanning the escape of one character consumes it and accumulates exactly
that character. -/
theorem parseStringAux_esc (fuel : Nat) (c : Char) (acc r : List Char) :
    parseStringAux (fuel + 1) acc (escChar c ++ r) = parseStringAux fuel (c :: acc) r := by
  have hval := char_toNat_range c
  by_cases e1 : c = '"'
  · subst e1
    rw [show escChar '"' = ['\\', '"'] from rfl, List.cons_append, List.cons_append,
      List.nil_append, parseStringAux_backslash]
    rfl
  by_cases e2 : c = '\\'
  · subst e2
    rw [show escChar '\\' = ['\\', '\\'] from rfl, List.cons_append, List.cons_append,
      List.nil_append, parseStringAux_backslash]
    rfl
  by_cases e3 : c = '\x08'
  · subst e3
    rw [show escChar '\x08' = ['\\', 'b'] from rfl, List.cons_append, List.cons_append,
      List.nil_append, parseStringAux_backslash]
    rfl
  by_cases e4 : c = '\x0c'
  · subst e4
    rw [show escChar '\x0c' = ['\\', 'f'] from rfl, List.cons_append, List.cons_append,
      List.nil_append, parseStringAux_backslash]
    rfl
  by_cases e5 : c = '\n'
  · subst e5
    rw [show escChar '\n' = ['\\', 'n'] from rfl, List.cons_append, List.cons_append,
      List.nil_append, parseStringAux_backslash]
    rfl
  by_cases e6 : c = '\r'
  · subst e6
    rw [show escChar '\r' = ['\\', 'r'] from rfl, List.cons_append, List.cons_append,
      List.nil_append, parseStringAux_backslash]
    rfl
  by_cases e7 : c = '\t'
  · subst e7
    rw [show escChar '\t' = ['\\', 't'] from rfl, List.cons_append, List.cons_append,
      List.nil_append, parseStringAux_backslash]
    rfl
  by_cases e8 : 0x20 ≤ c.toNat ∧ c.toNat ≤ 0x7e
  · rw [escChar, if_neg e1, if_neg e2, if_neg e3, if_neg e4, if_neg e5, if_neg e6,
      if_neg e7, if_pos e8, List.cons_append, List.nil_append,
      parseStringAux_literal fuel acc c e1 e2 e8.1]
  by_cases e9 : c.toNat < 0x10000
  · have hctl : ¬ (0x20 ≤ c.toNat ∧ c.toNat ≤ 0x7e) := e8
    rw [escChar, if_neg e1, if_neg e2, if_neg e3, if_neg e4, if_neg e5, if_neg e6,
      if_neg e7, if_neg e8, if_pos e9, List.cons_append, List.cons_append,
      parseStringAux_backslash]
    rw [readEscape_u, readUnicode_bmp c.toNat e9 (by omega), Char.ofNat_toNat]
  · rw [escChar, if_neg e1, if_neg e2, if_neg e3, if_neg e4, if_neg e5, if_neg e6,
      if_neg e7, if_neg e8, if_neg e9]
    simp only [List.cons_append, List.append_assoc]
    rw [parseStringAux_backslash]
    rw [readEscape_u, readUnicode_surrogate c.toNat (by omega) (by omega), Char.ofNat_toNat]

/-- Structure eta for strings: rebuilding a string from its character data
gives the same string. -/
theorem string_mk_data (s : String) : String.mk s.data = s := rfl

/-- Scanning the full escaped body of a string followed by the closing quote
returns exactly the original string, for any fuel above the body length. -/
theorem parseStringAux_escList (l : List Char) :
    ∀ (fuel : Nat) (acc r : List Char), l.length < fuel →
      parseStringAux fuel acc (escList l ++ '"' :: r) = some (⟨acc.reverse ++ l⟩, r) := by
  induction l with
  | nil =>
    intro fuel acc r hf
    obtain ⟨f, rfl⟩ : ∃ f, fuel = f + 1 := ⟨fuel - 1, by omega⟩
    simp only [escList, List.nil_append, parseStringAux]
    simp
  | cons c t ih =>
    intro fuel acc r hf
    obtain ⟨f, rfl⟩ : ∃ f, fuel = f + 1 := ⟨fuel - 1, by omega⟩
    rw [escList, List.append_assoc, parseStringAux_esc,
      ih f (c :: acc) r (by simp only [List.length_cons] at hf; omega)]
    simp

/-- Every single-character escape is nonempty. -/
theorem escChar_length_pos (c : Char) : 0 < (escChar c).length := by
  unfold escChar
  split_ifs <;> simp [hex4]

/-- Escaping cannot shorten a string body. -/
theorem escList_length_ge : ∀ l : List Char, l.length ≤ (escList l).length := by
  intro l
  induction l with
  | nil => simp [escList]
  | cons c t ih =>
    have := escChar_length_pos c
    simp only [escList, List.length_append, List.length_cons]
    omega

theorem digitsRevFuel_lt_ten : ∀ fuel n, ∀ d ∈ digitsRevFuel fuel n, d < 10 := by
  intro fuel
  induction fuel with
  | zero => intro n d hd; simp [digitsRevFuel] at hd
  | succ f ih =>
    intro n d hd
    by_cases h : n = 0
    · simp [digitsRevFuel, h] at hd
    · rw [digitsRevFuel, if_neg h] at hd
      rcases List.mem_cons.mp hd with h1 | h1
      · omega
      · exact ih _ d h1

theorem digitsRevFuel_foldl (fuel : Nat) : ∀ n, n ≤ fuel → ∀ a : Nat,
    ((digitsRevFuel fuel n).reverse).foldl (fun x d => x * 10 + d) a =
      a * 10 ^ (digitsRevFuel fuel n).length + n := by
  induction fuel with
  | zero =>
    intro n hn a
    have : n = 0 := by omega
    subst this
    simp [digitsRevFuel]
  | succ f ih =>
    intro n hn a
    by_cases h : n = 0
    · subst h; simp [digitsRevFuel]
    · rw [digitsRevFuel, if_neg h]
      rw [List.reverse_cons, List.foldl_append, ih (n / 10) (by omega) a]
      simp only [List.foldl_cons, List.foldl_nil, List.length_cons]
      rw [pow_succ]
      have h10 : 10 * (n / 10) + n % 10 = n := by omega
      generalize (10 : Nat) ^ (digitsRevFuel f (n / 10)).length = K
      have hr : (a * K + n / 10) * 10 + n % 10 = a * (K * 10) + (10 * (n / 10) + n % 10) := by
        ring
      rw [hr, h10]

theorem digitChar_props : ∀ d < 10, (digitChar d).isDigit = true ∧
    (digitChar d).toNat - 48 = d ∧ digitChar d ≠ '"' ∧ digitChar d ≠ 't' ∧
    digitChar d ≠ 'f' ∧ digitChar d ≠ '-' ∧ isWs (digitChar d) = false := by decide

theorem parseNatAux_digits : ∀ (ds : List Nat), (∀ d ∈ ds, d < 10) →
    ∀ (a : Nat) (r : List Char), noDigitHead r →
      parseNatAux a (ds.map digitChar ++ r) = (ds.foldl (fun x d => x * 10 + d) a, r) := by
  intro ds
  induction ds with
  | nil =>
    intro _ a r hr
    cases r with
    | nil => simp [parseNatAux]
    | cons c t =>
      have hc : c.isDigit = false := hr
      simp [parseNatAux, hc]
  | cons d t ih =>
    intro hds a r hr
    have hd := digitChar_props d (hds d (List.mem_cons_self d t))
    simp only [List.map_cons, List.cons_append, parseNatAux, List.append_eq]
    rw [if_pos hd.1, hd.2.1, ih (fun x hx => hds x (List.mem_cons_of_mem d hx)) _ r hr,
      List.foldl_cons]

theorem natChars_spec (n : Nat) : ∃ ds : List Nat, (∀ d ∈ ds, d < 10) ∧ ds ≠ [] ∧
    natChars n = ds.map digitChar ∧ ds.foldl (fun x d => x * 10 + d) 0 = n := by
  by_cases h : n = 0
  · subst h
    exact ⟨[0], by decide, by decide, rfl, rfl⟩
  · refine ⟨(digitsRevFuel n n).reverse, ?_, ?_, ?_, ?_⟩
    · intro d hd
      exact digitsRevFuel_lt_ten n n d (List.mem_reverse.mp hd)
    · obtain ⟨f, hf⟩ : ∃ f, n = f + 1 := ⟨n - 1, by omega⟩
      rw [hf, digitsRevFuel, if_neg (by omega)]
      simp
    · rw [natChars, if_neg h]
    · have := digitsRevFuel_foldl n n le_rfl 0
      simpa using this

theorem parseScalar_true (r : List Char) :
    parseScalar ('t' :: 'r' :: 'u' :: 'e' :: r) = some (.bool true, r) := rfl

theorem parseScalar_false (r : List Char) :
    parseScalar ('f' :: 'a' :: 'l' :: 's' :: 'e' :: r) = some (.bool false, r) := rfl

theorem parseScalar_str (s : String) (r : List Char) :
    parseScalar (encodeStringChars s ++ r) = some (.str s, r) := by
  rw [encodeStringChars]
  simp only [List.cons_append, List.append_assoc, List.nil_append]
  simp only [parseScalar]
  rw [parseStringAux_escList s.data _ [] r
    (by simp only [List.length_append, List.length_cons]
        have := escList_length_ge s.data
        omega)]
  simp [string_mk_data]

theorem parseScalar_nat (n : Nat) (r : List Char) (hr : noDigitHead r) :
    parseScalar (natChars n ++ r) = some (.int (n : Int), r) := by
  obtain ⟨ds, hds, hne, hmap, hfold⟩ := natChars_spec n
  obtain ⟨d, t, rfl⟩ : ∃ d t, ds = d :: t := by
    cases ds with
    | nil => exact absurd rfl hne
    | cons d t => exact ⟨d, t, rfl⟩
  have hd := digitChar_props d (hds d (List.mem_cons_self d t))
  rw [hmap]
  simp only [List.map_cons, List.cons_append, parseScalar]
  rw [if_neg hd.2.2.1, if_neg hd.2.2.2.1, if_neg hd.2.2.2.2.1, if_neg hd.2.2.2.2.2.1,
    if_pos hd.1, hd.2.1,
    parseNatAux_digits t (fun x hx => hds x (List.mem_cons_of_mem d hx)) d r hr]
  simp only [List.foldl_cons] at hfold
  rw [show (0 : Nat) * 10 + d = d by omega] at hfold
  rw [hfold]

theorem parseScalar_int (i : Int) (r : List Char) (hr : noDigitHead r) :
    parseScalar (intChars i ++ r) = some (.int i, r) := by
  by_cases hi : i < 0
  · rw [intChars, if_pos hi]
    obtain ⟨ds, hds, hne, hmap, hfold⟩ := natChars_spec (-i).toNat
    obtain ⟨d, t, rfl⟩ : ∃ d t, ds = d :: t := by
      cases ds with
      | nil => exact absurd rfl hne
      | cons d t => exact ⟨d, t, rfl⟩
    have hd := digitChar_props d (hds d (List.mem_cons_self d t))
    rw [List.cons_append, hmap]
    simp only [List.map_cons, List.cons_append, parseScalar]
    rw [if_pos hd.1, hd.2.1,
      parseNatAux_digits t (fun x hx => hds x (List.mem_cons_of_mem d hx)) d r hr]
    simp only [List.foldl_cons] at hfold
    rw [show (0 : Nat) * 10 + d = d by omega] at hfold
    rw [hfold]
    have : -(((-i).toNat : Nat) : Int) = i := by omega
    rw [this]
    simp
  · rw [intChars, if_neg hi]
    have : i.toNat = i := by omega
    rw [← this]
    exact parseScalar_nat i.toNat r hr

theorem skipWs_not_ws (c : Char) (h : isWs c = false) (l : List Char) :
    skipWs (c :: l) = c :: l := by
  simp [skipWs, h]

theorem skipWs_encodeScalar (v : Scalar) (X : List Char) :
    skipWs (encodeScalar v ++ X) = encodeScalar v ++ X := by
  cases v with
  | str s =>
    simp only [encodeScalar, encodeStringChars, List.cons_append]
    exact skipWs_not_ws '"' (by decide) _
  | bool b =>
    cases b <;> simp [encodeScalar, skipWs, isWs]
  | int i =>
    by_cases hi : i < 0
    · simp only [encodeScalar, intChars, if_pos hi, List.cons_append]
      exact skipWs_not_ws '-' (by decide) _
    · obtain ⟨ds, hds, hne, hmap, hfold⟩ := natChars_spec i.toNat
      obtain ⟨d, t, rfl⟩ : ∃ d t, ds = d :: t := by
        cases ds with
        | nil => exact absurd rfl hne
        | cons d t => exact ⟨d, t, rfl⟩
      have hd := digitChar_props d (hds d (List.mem_cons_self d t))
      simp only [encodeScalar, intChars, if_neg hi, hmap, List.map_cons, List.cons_append]
      exact skipWs_not_ws _ hd.2.2.2.2.2.2 _

theorem parseScalar_encodeScalar (v : Scalar) (r : List Char) (hr : noDigitHead r) :
    parseScalar (encodeScalar v ++ r) = some (v, r) := by
  cases v with
  | str s => exact parseScalar_str s r
  | bool b =>
    cases b with
    | true =>
      simp only [encodeScalar, List.cons_append, List.nil_append]
      exact parseScalar_true r
    | false =>
      simp only [encodeScalar, List.cons_append, List.nil_append]
      exact parseScalar_false r
  | int i => exact parseScalar_int i r hr

theorem parseItem_encItem (k : String) (v : Scalar) (X : List Char) (hr : noDigitHead X) :
    parseItem (encItem (k, v) ++ X) = some ((k, v), X) := by
  simp only [encItem, encodeStringChars, List.cons_append, List.append_assoc,
    List.nil_append]
  simp only [parseItem]
  rw [parseStringAux_escList k.data _ [] _
    (by simp only [List.length_append, List.length_cons]
        have := escList_length_ge k.data
        omega)]
  simp only [List.reverse_nil, List.nil_append, string_mk_data]
  rw [skipWs_not_ws ':' (by decide) _]
  have hsp : skipWs (' ' :: (encodeScalar v ++ X)) = encodeScalar v ++ X := by
    rw [skipWs, if_pos (by decide)]
    exact skipWs_encodeScalar v X
  simp only []
  rw [hsp, parseScalar_encodeScalar v X hr]

theorem encItems_cons_shape (x : String × Scalar) (t : List (String × Scalar)) :
    ∃ tl, encItems (x :: t) = '"' :: tl := by
  cases t with
  | nil =>
    refine ⟨escList x.1.data ++ ['"'] ++ (':' :: ' ' :: encodeScalar x.2), ?_⟩
    simp [encItems, encItem, encodeStringChars]
  | cons y t2 =>
    refine ⟨escList x.1.data ++ ['"'] ++ (':' :: ' ' :: encodeScalar x.2) ++
      ',' :: ' ' :: encItems (y :: t2), ?_⟩
    simp [encItems, encItem, encodeStringChars]

theorem parseItems_encItems : ∀ (p : List (String × Scalar)), p ≠ [] →
    ∀ (fuel : Nat), p.length < fuel → ∀ r : List Char,
      parseItems fuel (encItems p ++ '}' :: r) = some (p, r) := by
  intro p
  induction p with
  | nil => intro h; exact absurd rfl h
  | cons x t ih =>
    intro _ fuel hf r
    obtain ⟨f, rfl⟩ : ∃ f, fuel = f + 1 := ⟨fuel - 1, by omega⟩
    cases t with
    | nil =>
      simp only [encItems, parseItems]
      rw [show encItem x ++ '}' :: r = encItem (x.1, x.2) ++ '}' :: r by rfl]
      rw [parseItem_encItem x.1 x.2 ('}' :: r) (by exact (by decide : ('}' : Char).isDigit = false))]
      simp only []
      rw [skipWs_not_ws '}' (by decide) r]
      rfl
    | cons y t2 =>
      simp only [encItems, parseItems, List.append_assoc, List.cons_append]
      rw [show encItem x ++ (',' :: ' ' :: (encItems (y :: t2) ++ '}' :: r)) =
        encItem (x.1, x.2) ++ (',' :: ' ' :: (encItems (y :: t2) ++ '}' :: r)) by rfl]
      rw [parseItem_encItem x.1 x.2 _ (by exact (by decide : (',' : Char).isDigit = false))]
      simp only []
      rw [skipWs_not_ws ',' (by decide) _]
      simp only []
      obtain ⟨tl, htl⟩ := encItems_cons_shape y t2
      have hsp : skipWs (' ' :: (encItems (y :: t2) ++ '}' :: r)) =
          encItems (y :: t2) ++ '}' :: r := by
        rw [skipWs, if_pos (by decide), htl, List.cons_append]
        exact skipWs_not_ws '"' (by decide) _
      rw [hsp, ih (by simp) f (by simp only [List.length_cons] at hf ⊢; omega) r]

theorem encItems_length_ge : ∀ p : List (String × Scalar), p.length ≤ (encItems p).length := by
  intro p
  induction p with
  | nil => simp [encItems]
  | cons x t ih =>
    cases t with
    | nil => simp [encItems, encItem, encodeStringChars]
    | cons y t2 =>
      simp only [encItems, List.length_append, List.length_cons] at ih ⊢
      have : 0 < (encItem x).length := by
        simp [encItem, encodeStringChars]
      omega

theorem insertPair_notMem : ∀ (acc : List (String × Scalar)) (k : String) (v : Scalar),
    (∀ kv ∈ acc, kv.1 ≠ k) → insertPair acc k v = acc ++ [(k, v)] := by
  intro acc
  induction acc with
  | nil => intro k v _; rfl
  | cons x t ih =>
    intro k v h
    obtain ⟨k1, v1⟩ := x
    rw [insertPair, if_neg (h (k1, v1) (List.mem_cons_self _ _)), List.cons_append,
      ih k v (fun kv hkv => h kv (List.mem_cons_of_mem _ hkv))]

theorem foldl_insertPair : ∀ (p acc : List (String × Scalar)),
    (p.map Prod.fst).Nodup → (∀ kv ∈ acc, ∀ kw ∈ p, kv.1 ≠ kw.1) →
    p.foldl (fun a kv => insertPair a kv.1 kv.2) acc = acc ++ p := by
  intro p
  induction p with
  | nil => intro acc _ _; simp
  | cons x t ih =>
    intro acc hnd hdisj
    rw [List.foldl_cons,
      insertPair_notMem acc x.1 x.2 (fun kv hkv => hdisj kv hkv x (List.mem_cons_self _ _))]
    have hnd2 : (t.map Prod.fst).Nodup := by
      rw [List.map_cons] at hnd
      exact hnd.of_cons
    have hx1 : x.1 ∉ t.map Prod.fst := by
      rw [List.map_cons] at hnd
      exact (List.nodup_cons.mp hnd).1
    rw [ih (acc ++ [(x.1, x.2)]) hnd2 ?_]
    · simp
    · intro kv hkv kw hkw
      rcases List.mem_append.mp hkv with h1 | h1
      · exact hdisj kv h1 kw (List.mem_cons_of_mem _ hkw)
      · have : kv = (x.1, x.2) := by simpa using h1
        subst this
        intro hcontra
        exact hx1 (hcontra ▸ List.mem_map_of_mem Prod.fst hkw)

theorem data_mk (l : List Char) : (String.mk l).data = l := rfl

/-- Decoding inverts the dispatcher's JSON encoding on every payload map with
distinct keys. -/
theorem decode_encode (p : List (String × Scalar)) (h : (p.map Prod.fst).Nodup) :
    decodeObj (encodeObj p) = some p := by
  cases p with
  | nil => rfl
  | cons x t =>
    obtain ⟨tl, htl⟩ := encItems_cons_shape x t
    have hback : '"' :: (tl ++ ['}']) = encItems (x :: t) ++ '}' :: [] := by
      rw [htl]
      simp
    simp only [decodeObj, encodeObj, data_mk, List.cons_append]
    rw [skipWs_not_ws '{' (by decide) _]
    show (match skipWs (encItems (x :: t) ++ ['}']) with
      | '}' :: r2 => if skipWs r2 = [] then some [] else none
      | l =>
        match parseItems (l.length + 1) l with
        | some (kvs, r2) =>
          if skipWs r2 = [] then some (List.foldl (fun a kv => insertPair a kv.1 kv.2) [] kvs)
          else none
        | none => none) = some (x :: t)
    rw [htl, List.cons_append, skipWs_not_ws '"' (by decide) _]
    show (match parseItems (('"' :: (tl ++ ['}'])).length + 1) ('"' :: (tl ++ ['}'])) with
      | some (kvs, r2) =>
        if skipWs r2 = [] then some (List.foldl (fun a kv => insertPair a kv.1 kv.2) [] kvs)
        else none
      | none => none) = some (x :: t)
    rw [hback]
    have hlen : (x :: t).length < (encItems (x :: t) ++ '}' :: []).length + 1 := by
      have h2 := encItems_length_ge (x :: t)
      simp only [List.length_append, List.length_cons] at h2 ⊢
      omega
    rw [parseItems_encItems (x :: t) (by simp) _ hlen []]
    show (if skipWs [] = [] then
        some (List.foldl (fun a kv => insertPair a kv.1 kv.2) [] (x :: t))
      else none) = some (x :: t)
    rw [if_pos (show skipWs [] = [] from rfl)]
    rw [foldl_insertPair (x :: t) [] h (by simp)]
    simp


theorem getKey_pyInsert (st : SharedState) (k v : Json) (hk : k.keyEq k = true) :
    getKey (pyInsert st k v) k = some v := by
  induction st with
  | nil => simp [pyInsert, getKey, hk]
  | cons x t ih =>
    obtain ⟨k1, v1⟩ := x
    cases h : k1.keyEq k with
    | true => simp [pyInsert, h, getKey]
    | false => simp [pyInsert, h, getKey, ih]

theorem sendCommand_calls (peers : List Participant) (tr : Transport)
    (method payload : String) :
    ∀ c ∈ (sendCommand ⟨peers⟩ tr method payload).2,
      c.method = method ∧ c.payload = payload ∧
      ∃ p rest, peers = p :: rest ∧ c.destination_identity = p.identity := by
  intro c hc
  cases peers with
  | nil => simp [sendCommand, resolveEndpoint] at hc
  | cons p rest =>
    cases htr : tr ⟨p.identity, method, payload⟩ <;>
      simp [sendCommand, resolveEndpoint, htr] at hc <;>
      simp [hc]

/-! ## The claims -/

/-- Claim C1: for every state with exactly one connected remote endpoint,
invoking the `change_background` tool with argument `"blue"` performs exactly
one outbound RPC call — method `"change_background"`, payload encoding the map
`{"color": "blue"}` — addressed to that endpoint's identity, with no retries:
the attempt list is exactly one call for every transport behaviour, including
transport failure. -/
theorem C1_single_peer_one_call (p : Participant) (tr : Transport) :
    (change_background "blue" ⟨[p]⟩ tr).2 =
      [⟨p.identity, "change_background", encodeObj [("color", Scalar.str "blue")]⟩] ∧
    decodeObj (encodeObj [("color", Scalar.str "blue")]) =
      some [("color", Scalar.str "blue")] := by
  refine ⟨?_, by rfl⟩
  cases htr : tr ⟨p.identity, "change_background", encodeObj [("color", Scalar.str "blue")]⟩ <;>
    simp [change_background, sendCommand, resolveEndpoint, htr]

/-- Claim C2: for every method and payload, a dispatching tool handler invoked
with an empty connected-peer set returns the `NoEndpoint` outcome (the spec's
`NoEndpointAvailable`) and attempts no outbound RPC — for the shared dispatch
skeleton and for each of the five tools, under every transport. -/
theorem C2_empty_peers_no_io :
    (∀ (method payload : String) (tr : Transport),
      sendCommand ⟨[]⟩ tr method payload = (.NoEndpoint, [])) ∧
    (∀ (t : ToolCall) (tr : Transport), runTool t ⟨[]⟩ tr = (.NoEndpoint, [])) := by
  refine ⟨fun _ _ _ => rfl, fun t _ => ?_⟩
  cases t <;> rfl

/-- Claim C3: every dispatch returns a `DispatchResult` that is one of `Sent`,
`NoEndpoint`, `TransportFailure`; and whenever the transport call for the
addressed endpoint fails (the `perform_rpc` `except` path), the dispatch
returns the `TransportFailure` classification — after logging — without
raising to its caller (the model function is total). -/
theorem C3_dispatch_result_total (room : Room) (tr : Transport)
    (method payload : String) :
    ((sendCommand room tr method payload).1 = .Sent ∨
     (sendCommand room tr method payload).1 = .NoEndpoint ∨
     (sendCommand room tr method payload).1 = .TransportFailure) ∧
    (∀ p rest, room = ⟨p :: rest⟩ → tr ⟨p.identity, method, payload⟩ = false →
      sendCommand room tr method payload =
        (.TransportFailure, [⟨p.identity, method, payload⟩])) := by
  constructor
  · cases h : (sendCommand room tr method payload).1 <;> simp
  · intro p rest hroom htr
    subst hroom
    simp [sendCommand, resolveEndpoint, htr]

theorem C3_witness :
    sendCommand ⟨[⟨"peer-1"⟩]⟩ (fun _ => false) "change_background" "payload" =
      (.TransportFailure, [⟨"peer-1", "change_background", "payload"⟩]) :=
  (C3_dispatch_result_total ⟨[⟨"peer-1"⟩]⟩ (fun _ => false) "change_background"
    "payload").2 ⟨"peer-1"⟩ [] rfl rfl

/-- Claim C4 counterexample: the concrete byte sequence `[["a", 1]]` decodes
as a JSON array of one pair — not as a JSON object — yet delivering it to the
inbound handler does not leave `frontendData` unchanged: `json.loads`
succeeds, and `frontendData.update` consumes the array as a sequence of
key/value pairs, inserting `"a" ↦ 1`. -/
theorem C4_counterexample :
    on_data_received (some (.arr [.arr [.str "a", .num 1]])) [] =
      [(Json.str "a", Json.num 1)] ∧
    [(Json.str "a", Json.num 1)] ≠ ([] : SharedState) := ⟨rfl, by simp⟩

/-- Claim C4 (amended): for every input byte sequence that does not decode and
parse as JSON at all (`json.loads` raises — modelled as a `none` parse
result), delivering it to the inbound-message handler leaves SharedState
(`frontendData`) exactly unchanged, and no exception escapes the ingestion
path (the handler is total: the `except` branch absorbs the error). Inputs
that parse as non-object JSON may, however, be merged when `dict.update`
accepts them. -/
theorem C4_parse_failure_unchanged (st : SharedState) :
    on_data_received none st = st := rfl

/-- Claim C5: inbound messages merge in arrival order with last-write-wins:
from any prior state, ingesting `{"x": 1}` then `{"x": 2}` yields
`get("x") = 2`, and ingesting them in the reverse order yields
`get("x") = 1`. -/
theorem C5_last_write_wins (st : SharedState) :
    getKey (on_data_received (some (.obj [("x", .num 2)]))
        (on_data_received (some (.obj [("x", .num 1)])) st)) (.str "x") =
      some (.num 2) ∧
    getKey (on_data_received (some (.obj [("x", .num 1)]))
        (on_data_received (some (.obj [("x", .num 2)])) st)) (.str "x") =
      some (.num 1) := by
  constructor <;>
    · simp only [on_data_received, pyUpdate, List.foldl_cons, List.foldl_nil]
      exact getKey_pyInsert _ _ _ rfl

/-- Claim C6: for every payload map of string/bool/int values (with the
distinct keys a Python `dict` guarantees), decoding the dispatcher's JSON
encoding of the payload yields the original payload map back. -/
theorem C6_payload_roundtrip (p : List (String × Scalar))
    (h : (p.map Prod.fst).Nodup) :
    decodeObj (encodeObj p) = some p :=
  decode_encode p h

theorem C6_witness :
    (([("location", Scalar.str "Boston"), ("ok", Scalar.bool true),
        ("reps", Scalar.int 12)].map Prod.fst).Nodup) ∧
    decodeObj (encodeObj [("location", Scalar.str "Boston"),
        ("ok", Scalar.bool true), ("reps", Scalar.int 12)]) =
      some [("location", Scalar.str "Boston"), ("ok", Scalar.bool true),
        ("reps", Scalar.int 12)] :=
  ⟨by decide, C6_payload_roundtrip _ (by decide)⟩

/-- Claim C7: for every non-empty connected-peer set, endpoint resolution
returns the single endpoint that is first in the set's stable iteration
order, and every dispatch addresses at most one endpoint: the attempt list
never exceeds one call, and every attempted call is addressed to that first
endpoint's identity. -/
theorem C7_first_endpoint (p : Participant) (rest : List Participant)
    (room : Room) (tr : Transport) (method payload : String) :
    resolveEndpoint (p :: rest) = some p ∧
    ((sendCommand ⟨p :: rest⟩ tr method payload).2.all
      (fun c => c.destination_identity == p.identity)) = true ∧
    (sendCommand room tr method payload).2.length ≤ 1 := by
  refine ⟨rfl, ?_, ?_⟩
  · cases htr : tr ⟨p.identity, method, payload⟩ <;>
      simp [sendCommand, resolveEndpoint, htr]
  · obtain ⟨peers⟩ := room
    cases peers with
    | nil => simp [sendCommand, resolveEndpoint]
    | cons q qs =>
      cases htr : tr ⟨q.identity, method, payload⟩ <;>
        simp [sendCommand, resolveEndpoint, htr]

/-- Claim C8: the set of outbound RPC methods the program can emit is exactly
the fixed catalog `display_weather {location, weather}`,
`change_background {color}`, `start_game {Yes}`,
`select_exercise {exercise}`, `change_reps {reps}` (the weather tool
spec-modelled, as its handler is not under `src/`), and every emitted payload
decodes as a JSON object with exactly the listed keys, all string-valued. -/
theorem C8_method_catalog :
    (∀ m, canEmit m ↔ m ∈ methodCatalog) ∧
    (∀ (t : ToolCall) (room : Room) (tr : Transport),
      ∀ c ∈ (runTool t room tr).2,
        c.method = toolMethod t ∧
        decodeObj c.payload = some (toolPayloadMap t) ∧
        (toolPayloadMap t).map Prod.fst = toolKeys t ∧
        ((toolPayloadMap t).all fun kv => kv.2.isStr) = true) := by
  have hcalls : ∀ (t : ToolCall) (room : Room) (tr : Transport),
      ∀ c ∈ (runTool t room tr).2,
        c.method = toolMethod t ∧ c.payload = encodeObj (toolPayloadMap t) := by
    intro t room tr c hc
    obtain ⟨peers⟩ := room
    cases t <;>
      · have h := sendCommand_calls peers tr _ _ c hc
        exact ⟨h.1, h.2.1⟩
  constructor
  · intro m
    constructor
    · rintro ⟨t, room, tr, c, hc, rfl⟩
      rw [(hcalls t room tr c hc).1]
      cases t <;> simp [toolMethod, methodCatalog]
    · intro hm
      simp only [methodCatalog, List.mem_cons, List.not_mem_nil, or_false] at hm
      rcases hm with rfl | rfl | rfl | rfl | rfl
      · exact ⟨.display_weather "x" "y", ⟨[⟨"peer-1"⟩]⟩, fun _ => true, _,
          List.mem_singleton.mpr rfl, rfl⟩
      · exact ⟨.change_background "x", ⟨[⟨"peer-1"⟩]⟩, fun _ => true, _,
          List.mem_singleton.mpr rfl, rfl⟩
      · exact ⟨.start_game "x", ⟨[⟨"peer-1"⟩]⟩, fun _ => true, _,
          List.mem_singleton.mpr rfl, rfl⟩
      · exact ⟨.select_exercise "x", ⟨[⟨"peer-1"⟩]⟩, fun _ => true, _,
          List.mem_singleton.mpr rfl, rfl⟩
      · exact ⟨.change_reps "x", ⟨[⟨"peer-1"⟩]⟩, fun _ => true, _,
          List.mem_singleton.mpr rfl, rfl⟩
  · intro t room tr c hc
    obtain ⟨h1, h2⟩ := hcalls t room tr c hc
    refine ⟨h1, ?_, ?_, ?_⟩
    · rw [h2]
      exact decode_encode _ (by cases t <;> simp [toolPayloadMap])
    · cases t <;> simp [toolPayloadMap, toolKeys]
    · cases t <;> simp [toolPayloadMap, Scalar.isStr]

theorem C8_witness :
    ("display_weather" ∈ methodCatalog) ∧ canEmit "display_weather" :=
  ⟨by simp [methodCatalog],
    (C8_method_catalog.1 "display_weather").mpr (by simp [methodCatalog])⟩

/-- Claim C9 counterexample: at the concrete inputs `start_game("maybe")` and
`change_reps("lots")` with one connected peer, the handlers perform no typed
parse and raise no `HandlerException` for these non-boolean/non-integer
strings: each dispatches (outcome `Sent`, one RPC attempted) and the raw text
crosses the wire as the JSON string value (`{"Yes": "maybe"}`,
`{"reps": "lots"}`), refuting the claimed reject-at-invocation
behaviour. -/
theorem C9_counterexample :
    start_game "maybe" ⟨[⟨"peer-1"⟩]⟩ (fun _ => true) =
      (.Sent, [⟨"peer-1", "start_game", encodeObj [("Yes", Scalar.str "maybe")]⟩]) ∧
    change_reps "lots" ⟨[⟨"peer-1"⟩]⟩ (fun _ => true) =
      (.Sent, [⟨"peer-1", "change_reps", encodeObj [("reps", Scalar.str "lots")]⟩]) ∧
    decodeObj (encodeObj [("Yes", Scalar.str "maybe")]) =
      some [("Yes", Scalar.str "maybe")] ∧
    (start_game "maybe" ⟨[⟨"peer-1"⟩]⟩ (fun _ => true)).2 ≠ [] :=
  ⟨rfl, rfl, by decide, by decide⟩

/-- Claim C9 (amended): the `start_game` `Yes` argument and the `change_reps`
`reps` argument undergo no typed-parse step at invocation time: for every
string argument — including text denoting no boolean or integer — the handler
passes the raw text through to the wire as the (string-valued) JSON payload
field, raising no `HandlerException`; the wire payload decodes back to that
raw string. -/
theorem C9_raw_passthrough (s : String) (p : Participant)
    (rest : List Participant) (tr : Transport) :
    (start_game s ⟨p :: rest⟩ tr).2 =
      [⟨p.identity, "start_game", encodeObj [("Yes", Scalar.str s)]⟩] ∧
    (change_reps s ⟨p :: rest⟩ tr).2 =
      [⟨p.identity, "change_reps", encodeObj [("reps", Scalar.str s)]⟩] ∧
    decodeObj (encodeObj [("Yes", Scalar.str s)]) = some [("Yes", Scalar.str s)] ∧
    decodeObj (encodeObj [("reps", Scalar.str s)]) = some [("reps", Scalar.str s)] := by
  refine ⟨?_, ?_, decode_encode _ (by simp), decode_encode _ (by simp)⟩
  · cases htr : tr ⟨p.identity, "start_game", encodeObj [("Yes", Scalar.str s)]⟩ <;>
      simp [start_game, sendCommand, resolveEndpoint, htr]
  · cases htr : tr ⟨p.identity, "change_reps", encodeObj [("reps", Scalar.str s)]⟩ <;>
      simp [change_reps, sendCommand, resolveEndpoint, htr]

/-- Claim C10: invoking any tool handler — the four registered ones
(`change_background`, `select_exercise`, `start_game`, `change_reps`) and the
spec-modelled weather tool — with any arguments, any program state and any
transport leaves SharedState (`frontendData`) exactly unchanged (indeed the
whole program state), while the inbound `data_received` ingestion path is the
code that mutates it (witnessed by an ingestion that changes the store). -/
theorem C10_handlers_frame (t : ToolCall) (st : ProgState) (tr : Transport) :
    (runToolFull t st tr).1 = st ∧
    (runToolFull t st tr).1.frontendData = st.frontendData ∧
    on_data_received (some (.obj [("x", .num 1)])) [] ≠ [] := by
  refine ⟨rfl, rfl, ?_⟩
  rw [show on_data_received (some (.obj [("x", .num 1)])) [] =
    [(Json.str "x", Json.num 1)] from rfl]
  simp

theorem C1_witness :
    (change_background "blue" ⟨[⟨"peer-1"⟩]⟩ (fun _ => true)).2 =
      [⟨"peer-1", "change_background", encodeObj [("color", Scalar.str "blue")]⟩] :=
  (C1_single_peer_one_call ⟨"peer-1"⟩ (fun _ => true)).1

theorem C2_witness :
    sendCommand ⟨[]⟩ (fun _ => true) "change_background" "payload" =
      (.NoEndpoint, []) :=
  C2_empty_peers_no_io.1 "change_background" "payload" (fun _ => true)

theorem C4_witness : on_data_received none [(Json.str "k", Json.num 7)] =
    [(Json.str "k", Json.num 7)] :=
  C4_parse_failure_unchanged [(Json.str "k", Json.num 7)]

theorem C5_witness :
    getKey (on_data_received (some (.obj [("x", .num 2)]))
        (on_data_received (some (.obj [("x", .num 1)])) [])) (.str "x") =
      some (.num 2) :=
  (C5_last_write_wins []).1

theorem C7_witness : resolveEndpoint [⟨"peer-1"⟩, ⟨"peer-2"⟩] = some ⟨"peer-1"⟩ :=
  (C7_first_endpoint ⟨"peer-1"⟩ [⟨"peer-2"⟩] ⟨[]⟩ (fun _ => true)
    "change_background" "payload").1

theorem C9_witness :
    (start_game "true" ⟨[⟨"peer-1"⟩]⟩ (fun _ => true)).2 =
      [⟨"peer-1", "start_game", encodeObj [("Yes", Scalar.str "true")]⟩] :=
  (C9_raw_passthrough "true" ⟨"peer-1"⟩ [] (fun _ => true)).1

theorem C10_witness :
    (runToolFull (.change_background "blue") ⟨[], ⟨[]⟩⟩ (fun _ => true)).1 =
      ⟨[], ⟨[]⟩⟩ :=
  (C10_handlers_frame (.change_background "blue") ⟨[], ⟨[]⟩⟩ (fun _ => true)).1

end VoiceAssistant
